import Mathlib

/-
Verification of the subspace-correction preconditioner in
demos/subspace_correction/pulley.py (classes SubspaceCorrectionPrec, PatchPC,
P1PC) and of Halo.__init__ in firedrake/halo.py.

Modelling conventions:
* Scalars are rationals (exact arithmetic standing for PETSc scalars).
* Global and local PETSc vectors are total functions from flat indices to ℚ;
  a vector of logical size n carries its values at indices below n and zeros
  elsewhere (PETSc vectors are created zeroed with vec.set(0)).
* Dense patch matrices are total functions from (row, column) to ℚ together
  with an explicitly tracked size.
* The CSR pairs (offset, value) used for cells, dof_patches, glob_patches and
  bc_patches in the Python source are embedded as lists of lists: the slice
  value[offset[i] : offset[i+1]] is the i-th inner list.
* External collaborators (the compiled element kernel behind matrix_callable,
  the KSP solve, the P1 coarse solve, the assembled P1 operator) are
  parameters of the definitions; claims constrain them only through the
  hypotheses stated in the theorems.
-/

/-- Per-patch data held by a SubspaceCorrectionPrec context, as seen by
PatchPC.apply and SubspaceCorrectionPrec.matrices.
* cdim is the block dimension of the function space (V.dof_dset.cdim, equal to
  ctx.V.dim used as bsize in PatchPC.apply);
* glob is glob_patches: for each patch, the global (block) dof indices;
* bc is bc_patches: for each patch, the patch-local indices of the
  boundary-fixed dofs;
* assembled is the dense matrix produced for each patch by invoking the
  compiled element kernel (self.matrix_callable) over the patch cell range,
  before boundary elimination. -/
structure PatchData where
  cdim : ℕ
  glob : List (List ℕ)
  bc : List (List ℕ)
  assembled : ℕ → ℕ → ℕ → ℚ

/-- The expanded boundary rows of SubspaceCorrectionPrec.matrices:
rows = numpy.dstack([dim*rows + i for i in range(dim)]).flatten(), i.e. each
patch-local boundary dof r expands to the dim rows dim*r + c, c < dim. -/
def expandRows (dim : ℕ) (rows : List ℕ) : List ℕ :=
  (rows.map (fun r => (List.range dim).map (fun c => dim * r + c))).flatten

/-- PETSc MatZeroRowsColumns with the default diagonal value 1: every listed
row and column is zeroed, and the diagonal entry of every listed row is set
to one. -/
def zeroRowsColumns (rows : List ℕ) (m : ℕ → ℕ → ℚ) : ℕ → ℕ → ℚ :=
  fun r c => if r ∈ rows ∨ c ∈ rows then (if r = c then 1 else 0) else m r c

/-- The size of the dense matrix for patch i in
SubspaceCorrectionPrec.matrices:
(glob_patches.offset[i+1] - glob_patches.offset[i]) * dim. -/
def matSize (pd : PatchData) (dim i : ℕ) : ℕ :=
  (pd.glob.getD i []).length * dim

/-- The dense operator of patch i after assembly and boundary elimination:
the kernel-assembled matrix with zeroRowsColumns applied to the expanded
boundary rows (SubspaceCorrectionPrec.matrices, loop body). -/
def patchMat (pd : PatchData) (dim i : ℕ) : ℕ → ℕ → ℚ :=
  zeroRowsColumns (expandRows dim (pd.bc.getD i [])) (pd.assembled i)

/-- SubspaceCorrectionPrec.matrices: the body reads
dim = V.dof_dset.cdim, where V is not a local variable, not a parameter and
not self.V, so Python resolves it in the module global namespace.  The
argument moduleVdim is the cdim of the module-level binding V when one
exists.  When none exists the lookup raises NameError; otherwise every patch
matrix is built and sized with the module-level space's block dimension. -/
def matricesModel (pd : PatchData) (moduleVdim : Option ℕ) :
    Except String (List ((ℕ → ℕ → ℚ) × ℕ)) :=
  match moduleVdim with
  | none => Except.error "NameError: name V is not defined"
  | some dim => Except.ok ((List.range pd.glob.length).map
      (fun i => (patchMat pd dim i, matSize pd dim i)))

/-- The gather step of PatchPC.apply:
b.array.reshape(-1, bsize)[:] = x.array_r.reshape(-1, bsize)[patch_dofs].
Local block row j, component c (flat index t = j*bsize + c) receives the
entry of x at global block patch_dofs[j], component c; entries beyond the
local size stay at the zero set by b.set(0). -/
def gatherLocal (bsize : ℕ) (x : ℕ → ℚ) (pdofs : List ℕ) : ℕ → ℚ :=
  fun t => if t / bsize < pdofs.length
           then x (pdofs.getD (t / bsize) 0 * bsize + t % bsize)
           else 0

/-- The boundary forcing step of PatchPC.apply:
b.array.reshape(-1, bsize)[bc_dofs] = 0 zeroes every component of each
boundary-fixed local block row. -/
def forceBC (bsize : ℕ) (bc : List ℕ) (b : ℕ → ℚ) : ℕ → ℚ :=
  fun t => if t / bsize ∈ bc then 0 else b t

/-- The local right-hand side handed to the patch solve: the gathered
residual with boundary-fixed rows forced to zero. -/
def localRHS (pd : PatchData) (i : ℕ) (x : ℕ → ℚ) : ℕ → ℚ :=
  forceBC pd.cdim (pd.bc.getD i []) (gatherLocal pd.cdim x (pd.glob.getD i []))

/-- Type of the delegated local solver (the KSP configured with -sub_
options): size of the system, matrix, right-hand side, solution. -/
abbrev Solver : Type := ℕ → (ℕ → ℕ → ℚ) → (ℕ → ℚ) → ℕ → ℚ

/-- The local solution ly of patch i: the cached eliminated operator solved
against the forced local right-hand side (self.ksp.solve(b, ly)). -/
def patchLy (pd : PatchData) (solve : Solver) (x : ℕ → ℚ) (i : ℕ) : ℕ → ℚ :=
  solve (matSize pd pd.cdim i) (patchMat pd pd.cdim i) (localRHS pd i x)

/-- A single in-place accumulation v[k] += a on a vector. -/
def addAt (v : ℕ → ℚ) (k : ℕ) (a : ℚ) : ℕ → ℚ :=
  fun t => if t = k then v t + a else v t

/-- The scatter step of PatchPC.apply for one patch:
y.array.reshape(-1, bsize)[patch_dofs] += ly.array_r.reshape(-1, bsize)[:].
Flat local index s (block s/bsize, component s%bsize) is accumulated into the
global flat index patch_dofs[s/bsize]*bsize + s%bsize. -/
def scatterAdd (bsize : ℕ) (pdofs : List ℕ) (ly : ℕ → ℚ) (y : ℕ → ℚ) : ℕ → ℚ :=
  (List.range (pdofs.length * bsize)).foldl
    (fun acc s => addAt acc (pdofs.getD (s / bsize) 0 * bsize + s % bsize) (ly s))
    y

/-- PatchPC.apply with an explicit enumeration order of the patches: y is
set to zero, a first loop solves every patch system into tmp_ys, and a
second loop scatter-adds each local solution into y. -/
def patchApplyOrder (pd : PatchData) (solve : Solver) (order : List ℕ)
    (x : ℕ → ℚ) : ℕ → ℚ :=
  let tmp_ys := order.map (fun i => patchLy pd solve x i)
  (order.zip tmp_ys).foldl
    (fun y p => scatterAdd pd.cdim (pd.glob.getD p.1 []) p.2 y)
    (fun _ => 0)

/-- PatchPC.apply: both loops run over enumerate(ctx.matrices), i.e. the
patches in order 0, 1, ..., npatch-1. -/
def patchApply (pd : PatchData) (solve : Solver) (x : ℕ → ℚ) : ℕ → ℚ :=
  patchApplyOrder pd solve (List.range pd.glob.length) x

/-- Specification-side formula for the contribution of patch i at global
flat index t: the sum, over the local flat indices s that scatter to t, of
the local solution of patch i at s. -/
def specContribution (pd : PatchData) (solve : Solver) (x : ℕ → ℚ)
    (i t : ℕ) : ℚ :=
  ((List.range ((pd.glob.getD i []).length * pd.cdim)).map
    (fun s => if (pd.glob.getD i []).getD (s / pd.cdim) 0 * pd.cdim + s % pd.cdim = t
              then patchLy pd solve x i s else 0)).sum

/-- The coarse-correction context used by P1PC: the number of fine and
coarse (block) dofs, the single assembled transfer operator transfer_op
(a coarse-rows by fine-columns sparse matrix, here its entry function), and
the coarse operator P1_op (assembled externally on the coarse space from
P1_form with the boundary values of the original problem interpolated into
P1 by P1_bcs). -/
structure CoarseCtx where
  fineN : ℕ
  coarseN : ℕ
  transfer : ℕ → ℕ → ℚ
  p1op : ℕ → ℕ → ℚ

/-- PETSc MatMult restricted to n columns: (m * v) at row r. -/
def multVec (n : ℕ) (m : ℕ → ℕ → ℚ) (v : ℕ → ℚ) : ℕ → ℚ :=
  fun r => ((List.range n).map (fun c => m r c * v c)).sum

/-- PETSc MatMultTranspose restricted to n rows: (mᵗ * v) at column c,
computed from the same matrix m without forming a second matrix. -/
def multTransposeVec (n : ℕ) (m : ℕ → ℕ → ℚ) (v : ℕ → ℚ) : ℕ → ℚ :=
  fun c => ((List.range n).map (fun r => m r c * v r)).sum

/-- The transpose of a matrix, as an explicit matrix. -/
def transposeMat (m : ℕ → ℕ → ℚ) : ℕ → ℕ → ℚ :=
  fun r c => m c r

/-- Euclidean inner product on the first n entries. -/
def dotVec (n : ℕ) (u v : ℕ → ℚ) : ℚ :=
  ((List.range n).map (fun i => u i * v i)).sum

/-- P1PC.apply: after zeroing y and the work vectors,
work1 = transfer * x (self.transfer.mult), work2 = coarse solve of work1
with the operator P1_op (self.pc.apply), and y = transferᵗ * work2
(self.transfer.multTranspose).  The coarse solve is the delegated backend
PC configured with the -lo_ options prefix. -/
def p1Apply (cc : CoarseCtx) (coarseSolve : (ℕ → ℕ → ℚ) → (ℕ → ℚ) → ℕ → ℚ)
    (x : ℕ → ℚ) : ℕ → ℚ :=
  let work1 := multVec cc.fineN cc.transfer x
  let work2 := coarseSolve cc.p1op work1
  multTransposeVec cc.coarseN cc.transfer work2

/-- Modelled from the spec: the source exposes PatchPC and P1PC as two
separately selectable PETSc preconditioners and never assembles their
composition into one operator; the spec mandates the additive two-level
composition Apply(x) = PatchSmoother.Apply(x) + CoarseCorrection.Apply(x),
with the two contributions computed independently and summed. -/
def compositeApply (pd : PatchData) (solve : Solver) (cc : CoarseCtx)
    (coarseSolve : (ℕ → ℕ → ℚ) → (ℕ → ℚ) → ℕ → ℚ) (x : ℕ → ℚ) : ℕ → ℚ :=
  fun t => patchApply pd solve x t + p1Apply cc coarseSolve x t

/-- Errors raised by SubspaceCorrectionPrec.__init__: the
NotImplementedError raised for unsupported field rank (the spec classifies
this construction-time failure as ConfigurationError), and the failure of
the assert len(V.shape) == 1 guard. -/
inductive BuildError where
  | configurationError : BuildError
  | assertionFailure : BuildError
deriving DecidableEq

/-- The coarse space built by SubspaceCorrectionPrec.__init__:
FunctionSpace(mesh, CG, 1) for a scalar space, or
VectorFunctionSpace(mesh, CG, 1, dim=V.shape[0]) for a vector space. -/
inductive CoarseSpace where
  | scalarP1 : CoarseSpace
  | vectorP1 : ℕ → CoarseSpace
deriving DecidableEq

/-- The rank dispatch of SubspaceCorrectionPrec.__init__: rank 0 builds the
scalar P1 space, rank 1 (after asserting the shape has length 1) builds the
vector P1 space with matching dimension, and any other rank raises. -/
def buildCoarseSpace (rank : ℕ) (shape : List ℕ) : Except BuildError CoarseSpace :=
  if rank = 0 then Except.ok CoarseSpace.scalarP1
  else if rank = 1 then
    (if shape.length = 1 then Except.ok (CoarseSpace.vectorP1 (shape.getD 0 0))
     else Except.error BuildError.assertionFailure)
  else Except.error BuildError.configurationError

/-- The state of a Halo after __init__: the _gnn2unn attribute. -/
structure HaloState where
  gnn2unn : Option (List ℤ)

/-- The branch `if op2.MPI.comm.size == 1: self._gnn2unn = None` of
Halo.__init__: on a one-process communicator the attribute is set to None,
otherwise it keeps its previous (unset) state. -/
def sizeOneBranch (commSize : ℕ) (prev : Option (List ℤ)) : Option (List ℤ) :=
  if commSize = 1 then none else prev

/-- The unconditional assignment
`self._gnn2unn = dmplex.make_global_numbering(lsec, gsec)` that follows the
branch: it overwrites whatever the attribute held. -/
def assignMakeGlobalNumbering (mgn : List ℤ) (_prev : Option (List ℤ)) :
    Option (List ℤ) :=
  some mgn

/-- Halo.__init__: after the SF type check (raising for a non-basic SF),
the size-one branch runs and is then unconditionally overwritten by the
make_global_numbering assignment.  mgn is the array computed by the external
dmplex.make_global_numbering. -/
def haloInit (sfTypeBasic : Bool) (commSize : ℕ) (mgn : List ℤ) :
    Except String HaloState :=
  if sfTypeBasic then
    Except.ok (HaloState.mk
      (assignMakeGlobalNumbering mgn (sizeOneBranch commSize none)))
  else
    Except.error "RuntimeError: Windowed SFs expose bugs in OpenMPI (use -sf_type basic)"

/-- Halo.global_to_petsc_numbering: returns self._gnn2unn. -/
def global_to_petsc_numbering (h : HaloState) : Option (List ℤ) :=
  h.gnn2unn

/-- Concrete patch data used by the witnesses: block dimension 2, two
patches with overlapping global dofs, patch 0 with one boundary-fixed local
dof, and an arbitrary assembled kernel matrix. -/
def pdEx : PatchData :=
  PatchData.mk 2 [[0, 1], [1, 2]] [[0], []] (fun _ r c => (r : ℚ) + (c : ℚ) + 1)

/-- Concrete degenerate patch data used by the witnesses: one patch whose
single local dof is boundary-fixed. -/
def pdDeg : PatchData :=
  PatchData.mk 1 [[5]] [[0]] (fun _ _ _ => 2)

/-- A concrete local solver used by the witnesses (returns the right-hand
side unchanged; it satisfies the identity-system contract). -/
def solveEx : Solver :=
  fun _ _ b => b

/-- A concrete residual vector used by the witnesses. -/
def xEx : ℕ → ℚ :=
  fun t => (t : ℚ) + 1

/-- Sum of a function mapped over List.range equals the Finset.range sum. -/
lemma listSum_range (f : ℕ → ℚ) : ∀ n : ℕ,
    ((List.range n).map f).sum = ∑ i in Finset.range n, f i := by
  intro n
  induction n with
  | zero => simp
  | succ n ih =>
      rw [List.range_succ, List.map_append, List.sum_append,
        Finset.sum_range_succ, ih]
      simp

/-- Pointwise value of a left fold of single-entry accumulations: the
starting value plus the sum of the amounts scattered to the inspected
index. -/
lemma foldl_addAt (key : ℕ → ℕ) (amt : ℕ → ℚ) :
    ∀ (L : List ℕ) (y : ℕ → ℚ) (t : ℕ),
      (L.foldl (fun acc s => addAt acc (key s) (amt s)) y) t
        = y t + (L.map (fun s => if key s = t then amt s else 0)).sum := by
  intro L
  induction L with
  | nil => intro y t; simp
  | cons s L ih =>
      intro y t
      rw [List.foldl_cons, ih, List.map_cons, List.sum_cons]
      simp only [addAt]
      by_cases h : t = key s
      · rw [if_pos h, if_pos h.symm]; ring
      · rw [if_neg h, if_neg (fun hh => h hh.symm)]; ring

/-- Pointwise value of the scatter step: the previous value plus the sum of
the local-solution entries whose target is the inspected global index. -/
lemma scatterAdd_eq (bsize : ℕ) (pdofs : List ℕ) (ly y : ℕ → ℚ) (t : ℕ) :
    scatterAdd bsize pdofs ly y t
      = y t + ((List.range (pdofs.length * bsize)).map
          (fun s => if pdofs.getD (s / bsize) 0 * bsize + s % bsize = t
                    then ly s else 0)).sum := by
  unfold scatterAdd
  exact foldl_addAt (fun s => pdofs.getD (s / bsize) 0 * bsize + s % bsize)
    ly (List.range (pdofs.length * bsize)) y t

/-- Pointwise value of the two-loop solve-then-scatter fold of
PatchPC.apply over an arbitrary patch order. -/
lemma applyFold_eq (pd : PatchData) (solve : Solver) (x : ℕ → ℚ) :
    ∀ (L : List ℕ) (y : ℕ → ℚ) (t : ℕ),
      ((L.zip (L.map (fun i => patchLy pd solve x i))).foldl
          (fun y p => scatterAdd pd.cdim (pd.glob.getD p.1 []) p.2 y) y) t
        = y t + (L.map (fun i => specContribution pd solve x i t)).sum := by
  intro L
  induction L with
  | nil => intro y t; simp
  | cons i L ih =>
      intro y t
      rw [List.map_cons, List.zip_cons_cons, List.foldl_cons, ih,
        List.map_cons, List.sum_cons, scatterAdd_eq]
      unfold specContribution
      ring

/-- Pointwise value of patchApplyOrder. -/
lemma patchApplyOrder_eq (pd : PatchData) (solve : Solver) (order : List ℕ)
    (x : ℕ → ℚ) (t : ℕ) :
    patchApplyOrder pd solve order x t
      = (order.map (fun i => specContribution pd solve x i t)).sum := by
  unfold patchApplyOrder
  rw [applyFold_eq]
  exact zero_add _

/-- Membership in the expanded boundary rows. -/
lemma mem_expandRows (dim : ℕ) (rows : List ℕ) (r k : ℕ)
    (hr : r ∈ rows) (hk : k < dim) : dim * r + k ∈ expandRows dim rows := by
  unfold expandRows
  refine List.mem_flatten.mpr ⟨(List.range dim).map (fun c => dim * r + c), ?_, ?_⟩
  · exact List.mem_map.mpr ⟨r, hr, rfl⟩
  · exact List.mem_map.mpr ⟨k, List.mem_range.mpr hk, rfl⟩

/-- Dividing an in-block flat index recovers the block row. -/
lemma blockRow_div (dim r k : ℕ) (hk : k < dim) : (dim * r + k) / dim = r := by
  rw [Nat.mul_add_div (Nat.lt_of_le_of_lt (Nat.zero_le k) hk)]
  rw [Nat.div_eq_of_lt hk, Nat.add_zero]

/-- C1: for every patch smoother apply call, the output correction vector is
first set entirely to zero, and then for every patch the residual entries at
that patch's global dof indices are gathered into a local right-hand side,
the boundary-fixed local entries of that right-hand side are set to zero,
the patch's cached local operator is solved against it, and the local
solution is added (scatter-add, accumulating over overlapping patches) into
the output at the patch's global dof indices: pointwise, the output is the
sum over all patches of the scattered local solutions of the
boundary-forced gathered right-hand sides. -/
theorem patchApply_zero_init_gather_solve_scatter (pd : PatchData)
    (solve : Solver) (x : ℕ → ℚ) (t : ℕ) :
    patchApply pd solve x t
      = ((List.range pd.glob.length).map
          (fun i => specContribution pd solve x i t)).sum := by
  unfold patchApply
  exact patchApplyOrder_eq pd solve (List.range pd.glob.length) x t

/-- C8: during a patch smoother apply the global residual is only read (it
enters the model purely as an input function) and the resulting global
correction is the same for every enumeration order of the patches: any two
runs over any permutation of the patch list produce the same output. -/
theorem patchApply_order_independent (pd : PatchData) (solve : Solver)
    (x : ℕ → ℚ) (o1 o2 : List ℕ) (h : List.Perm o1 o2) :
    patchApplyOrder pd solve o1 x = patchApplyOrder pd solve o2 x := by
  funext t
  rw [patchApplyOrder_eq, patchApplyOrder_eq]
  exact List.Perm.sum_eq (List.Perm.map (fun i => specContribution pd solve x i t) h)

/-- Witness for C8 at concrete data and the transposition of a two-patch
order. -/
theorem patchApply_order_independent_witness :
    patchApplyOrder pdEx solveEx [0, 1] xEx = patchApplyOrder pdEx solveEx [1, 0] xEx :=
  patchApply_order_independent pdEx solveEx xEx [0, 1] [1, 0] (List.Perm.swap 1 0 [])

/-- C3: for every patch, every boundary-fixed local dof and every component
of the block dimension, after patch-operator construction the corresponding
row and column of the dense patch matrix are zero except for a diagonal
entry equal to one, and before every local patch solve the corresponding
entry of the local right-hand side is zero. -/
theorem patch_boundary_elimination (pd : PatchData) (i rloc k : ℕ) (x : ℕ → ℚ)
    (hr : rloc ∈ pd.bc.getD i []) (hk : k < pd.cdim) :
    (∀ c, patchMat pd pd.cdim i (pd.cdim * rloc + k) c
        = if pd.cdim * rloc + k = c then 1 else 0) ∧
    (∀ r, patchMat pd pd.cdim i r (pd.cdim * rloc + k)
        = if r = pd.cdim * rloc + k then 1 else 0) ∧
    localRHS pd i x (pd.cdim * rloc + k) = 0 := by
  have hmem := mem_expandRows pd.cdim (pd.bc.getD i []) rloc k hr hk
  refine ⟨?_, ?_, ?_⟩
  · intro c
    unfold patchMat zeroRowsColumns
    rw [if_pos (Or.inl hmem)]
  · intro r
    unfold patchMat zeroRowsColumns
    rw [if_pos (Or.inr hmem)]
  · simp only [localRHS, forceBC]
    rw [blockRow_div pd.cdim rloc k hk]
    rw [if_pos hr]

/-- Witness for C3 at concrete data: patch 0 of pdEx has local dof 0
boundary-fixed and block dimension 2. -/
theorem patch_boundary_elimination_witness :
    (patchMat pdEx pdEx.cdim 0 (pdEx.cdim * 0 + 1) 3
       = if pdEx.cdim * 0 + 1 = 3 then 1 else 0) ∧
    localRHS pdEx 0 xEx (pdEx.cdim * 0 + 1) = 0 := by
  have h := patch_boundary_elimination pdEx 0 0 1 xEx (by decide) (by decide)
  exact ⟨h.1 3, h.2.2⟩

/-- C6: a patch whose free-dof set is empty after boundary elimination
(every local dof boundary-fixed) contributes exactly zero to the global
correction and raises nothing: its eliminated operator is the identity on
its index range, its forced right-hand side is the zero vector, and (for any
solver honouring the identity-system contract) its scatter-add leaves the
global correction unchanged. -/
theorem degenerate_patch_zero_contribution (pd : PatchData) (solve : Solver)
    (x : ℕ → ℚ) (i : ℕ)
    (hall : ∀ j, j < (pd.glob.getD i []).length → j ∈ pd.bc.getD i [])
    (hsolve : ∀ n m b, (∀ r c, r < n → c < n → m r c = if r = c then 1 else 0) →
        (∀ t, b t = 0) → ∀ t, solve n m b t = 0) :
    (∀ r c, r < matSize pd pd.cdim i → c < matSize pd pd.cdim i →
        patchMat pd pd.cdim i r c = if r = c then 1 else 0) ∧
    (∀ t, localRHS pd i x t = 0) ∧
    (∀ y t, scatterAdd pd.cdim (pd.glob.getD i []) (patchLy pd solve x i) y t = y t) := by
  have hA : ∀ r c, r < matSize pd pd.cdim i → c < matSize pd pd.cdim i →
      patchMat pd pd.cdim i r c = if r = c then 1 else 0 := by
    intro r c hrlt _
    have hdim : 0 < pd.cdim := by
      rcases Nat.eq_zero_or_pos pd.cdim with h0 | h0
      · exfalso
        rw [matSize, h0, Nat.mul_zero] at hrlt
        exact Nat.not_lt_zero r hrlt
      · exact h0
    have hrow : r / pd.cdim < (pd.glob.getD i []).length := by
      rw [matSize] at hrlt
      exact (Nat.div_lt_iff_lt_mul hdim).mpr hrlt
    have hmem : r ∈ expandRows pd.cdim (pd.bc.getD i []) := by
      have hm := mem_expandRows pd.cdim (pd.bc.getD i []) (r / pd.cdim) (r % pd.cdim)
        (hall (r / pd.cdim) hrow) (Nat.mod_lt r hdim)
      rw [Nat.div_add_mod] at hm
      exact hm
    unfold patchMat zeroRowsColumns
    rw [if_pos (Or.inl hmem)]
  have hB : ∀ t, localRHS pd i x t = 0 := by
    intro t
    simp only [localRHS, forceBC, gatherLocal]
    by_cases hbc : t / pd.cdim ∈ pd.bc.getD i []
    · rw [if_pos hbc]
    · rw [if_neg hbc, if_neg (fun hlt => hbc (hall _ hlt))]
  refine ⟨hA, hB, ?_⟩
  intro y t
  rw [scatterAdd_eq]
  have hz : ∀ s, patchLy pd solve x i s = 0 := by
    intro s
    exact hsolve (matSize pd pd.cdim i) (patchMat pd pd.cdim i) (localRHS pd i x) hA hB s
  have hsum : ((List.range ((pd.glob.getD i []).length * pd.cdim)).map
      (fun s => if (pd.glob.getD i []).getD (s / pd.cdim) 0 * pd.cdim + s % pd.cdim = t
                then patchLy pd solve x i s else 0)).sum = 0 := by
    apply List.sum_eq_zero
    intro q hq
    obtain ⟨s, _, rfl⟩ := List.mem_map.mp hq
    rw [hz s]
    split <;> rfl
  rw [hsum, add_zero]

/-- Witness for C6 at the concrete degenerate patch pdDeg, whose single
local dof is boundary-fixed, with the pass-through solver. -/
theorem degenerate_patch_zero_contribution_witness :
    scatterAdd pdDeg.cdim (pdDeg.glob.getD 0 []) (patchLy pdDeg solveEx xEx 0) xEx 7
      = xEx 7 := by
  have hall : ∀ j, j < (pdDeg.glob.getD 0 []).length → j ∈ pdDeg.bc.getD 0 [] := by
    intro j hj
    have hl : (pdDeg.glob.getD 0 []).length = 1 := rfl
    rw [hl] at hj
    rw [Nat.lt_one_iff.mp hj]
    decide
  have hsolve : ∀ n m b, (∀ r c, r < n → c < n → m r c = if r = c then 1 else 0) →
      (∀ t, b t = 0) → ∀ t, solveEx n m b t = 0 := fun _ _ b _ hb t => hb t
  exact (degenerate_patch_zero_contribution pdDeg solveEx xEx 0 hall hsolve).2.2 xEx 7

/-- C2: for every input vector x, the coarse correction apply computes
y = T * Solve(CoarseOperator, Tᵗ * x): with T the prolongation (the algebraic
transpose of the single assembled transfer matrix), x is restricted to the
coarse space by the transfer operator, the coarse operator P1_op is solved
on the restricted vector by the delegated backend, and the coarse result is
prolonged back to the fine space. -/
theorem p1Apply_prolong_solve_restrict (cc : CoarseCtx)
    (coarseSolve : (ℕ → ℕ → ℚ) → (ℕ → ℚ) → ℕ → ℚ) (x : ℕ → ℚ) :
    p1Apply cc coarseSolve x
      = multVec cc.coarseN (transposeMat cc.transfer)
          (coarseSolve cc.p1op (multVec cc.fineN cc.transfer x)) := rfl

/-- C4: restriction is exactly the transpose of prolongation: the
coarse-to-fine direction is the transpose of the single assembled transfer
matrix applied algebraically (MatMultTranspose of the same matrix, never a
second assembled matrix), the two directions carry entrywise transposed
values, and the two applications are adjoint with respect to the Euclidean
pairing. -/
theorem restriction_is_transpose_of_prolongation (cc : CoarseCtx) :
    (∀ w c, multTransposeVec cc.coarseN cc.transfer w c
        = multVec cc.coarseN (transposeMat cc.transfer) w c) ∧
    (∀ r c, transposeMat cc.transfer c r = cc.transfer r c) ∧
    (∀ u w, dotVec cc.coarseN (multVec cc.fineN cc.transfer u) w
        = dotVec cc.fineN u (multTransposeVec cc.coarseN cc.transfer w)) := by
  refine ⟨fun w c => rfl, fun r c => rfl, fun u w => ?_⟩
  unfold dotVec
  rw [listSum_range, listSum_range]
  have h1 : ∀ r, multVec cc.fineN cc.transfer u r
      = ∑ c in Finset.range cc.fineN, cc.transfer r c * u c := by
    intro r
    unfold multVec
    rw [listSum_range]
  have h2 : ∀ c, multTransposeVec cc.coarseN cc.transfer w c
      = ∑ r in Finset.range cc.coarseN, cc.transfer r c * w r := by
    intro c
    unfold multTransposeVec
    rw [listSum_range]
  simp only [h1, h2]
  calc
    ∑ r in Finset.range cc.coarseN,
        (∑ c in Finset.range cc.fineN, cc.transfer r c * u c) * w r
      = ∑ r in Finset.range cc.coarseN, ∑ c in Finset.range cc.fineN,
          cc.transfer r c * u c * w r :=
        Finset.sum_congr rfl (fun r _ => Finset.sum_mul _ _ _)
    _ = ∑ c in Finset.range cc.fineN, ∑ r in Finset.range cc.coarseN,
          cc.transfer r c * u c * w r := Finset.sum_comm
    _ = ∑ c in Finset.range cc.fineN,
          u c * ∑ r in Finset.range cc.coarseN, cc.transfer r c * w r := by
        refine Finset.sum_congr rfl (fun c _ => ?_)
        rw [Finset.mul_sum]
        exact Finset.sum_congr rfl (fun r _ => by ring)

/-- C5: the composite operator's apply equals the patch smoother's apply
plus the coarse correction's apply, exactly, the two contributions being
computed independently and summed (exact rational arithmetic models the
bit-for-bit claim for the single additive composition). -/
theorem compositeApply_additive (pd : PatchData) (solve : Solver)
    (cc : CoarseCtx) (coarseSolve : (ℕ → ℕ → ℚ) → (ℕ → ℚ) → ℕ → ℚ)
    (x : ℕ → ℚ) (t : ℕ) :
    compositeApply pd solve cc coarseSolve x t
      = patchApply pd solve x t + p1Apply cc coarseSolve x t := rfl

/-- C7: preconditioner construction fails eagerly whenever the function
space is tensor-valued (rank at least 2), with the error the spec
classifies as ConfigurationError, and succeeds in building the coarse space
exactly for rank 0 (scalar) and rank 1 (vector) spaces. -/
theorem coarse_space_rank_check (rank : ℕ) (shape : List ℕ) :
    (2 ≤ rank →
        buildCoarseSpace rank shape = Except.error BuildError.configurationError) ∧
    (rank = 0 → buildCoarseSpace rank shape = Except.ok CoarseSpace.scalarP1) ∧
    (rank = 1 → shape.length = 1 →
        buildCoarseSpace rank shape
          = Except.ok (CoarseSpace.vectorP1 (shape.getD 0 0))) ∧
    ((∃ cs, buildCoarseSpace rank shape = Except.ok cs) → rank ≤ 1) := by
  refine ⟨?_, ?_, ?_, ?_⟩
  · intro h
    unfold buildCoarseSpace
    rw [if_neg (by omega), if_neg (by omega)]
  · intro h
    unfold buildCoarseSpace
    rw [if_pos h]
  · intro h1 h2
    unfold buildCoarseSpace
    rw [if_neg (by omega), if_pos h1, if_pos h2]
  · rintro ⟨cs, hcs⟩
    by_contra hgt
    push_neg at hgt
    unfold buildCoarseSpace at hcs
    rw [if_neg (by omega), if_neg (by omega)] at hcs
    exact Except.noConfusion hcs

/-- Witness for C7 at concrete ranks: a rank-2 tensor shape fails with the
configuration error, rank 0 and rank 1 build the scalar and vector coarse
spaces. -/
theorem coarse_space_rank_check_witness :
    buildCoarseSpace 2 [3, 3] = Except.error BuildError.configurationError ∧
    buildCoarseSpace 0 [] = Except.ok CoarseSpace.scalarP1 ∧
    buildCoarseSpace 1 [3] = Except.ok (CoarseSpace.vectorP1 3) :=
  ⟨(coarse_space_rank_check 2 [3, 3]).1 (by decide),
   (coarse_space_rank_check 0 []).2.1 rfl,
   (coarse_space_rank_check 1 [3]).2.2.1 rfl rfl⟩

/-- C9: evaluating the matrices property reads the block dimension from the
module-level global V, not from the instance's own space: with no
module-level binding the evaluation raises NameError, and with a
module-level V of a different block dimension every patch matrix is built
and sized by that unrelated dimension, giving a size different from the one
the instance's own space would give on any non-empty patch. -/
theorem matrices_reads_module_level_V (pd : PatchData) (d i : ℕ)
    (hd : d ≠ pd.cdim) (hlen : (pd.glob.getD i []).length ≠ 0) :
    matricesModel pd none = Except.error "NameError: name V is not defined" ∧
    matricesModel pd (some d) = Except.ok ((List.range pd.glob.length).map
        (fun j => (patchMat pd d j, matSize pd d j))) ∧
    matSize pd d i ≠ matSize pd pd.cdim i := by
  refine ⟨rfl, rfl, ?_⟩
  unfold matSize
  intro h
  rw [Nat.mul_comm, Nat.mul_comm (pd.glob.getD i []).length pd.cdim] at h
  exact hd (Nat.eq_of_mul_eq_mul_right (Nat.pos_of_ne_zero hlen) h)

/-- Witness for C9: with a module-level V of block dimension 3 instead of
pdEx's own 2, patch 0's matrix size differs. -/
theorem matrices_reads_module_level_V_witness :
    matSize pdEx 3 0 ≠ matSize pdEx pdEx.cdim 0 :=
  (matrices_reads_module_level_V pdEx 3 0 (by decide) (by decide)).2.2

/-- C10: after Halo construction succeeds, the global-to-universal numbering
is always the array computed by make_global_numbering and never None, on
every communicator size (in particular on a single-process communicator,
where the branch assigning None is unconditionally overwritten). -/
theorem halo_global_numbering_never_none (b : Bool) (n : ℕ) (mgn : List ℤ)
    (st : HaloState) (h : haloInit b n mgn = Except.ok st) :
    global_to_petsc_numbering st = some mgn ∧
    global_to_petsc_numbering st ≠ none := by
  cases b with
  | false => simp [haloInit] at h
  | true =>
      have heval : haloInit true n mgn = Except.ok (HaloState.mk (some mgn)) := rfl
      rw [heval] at h
      rw [(Except.ok.inj h).symm]
      exact ⟨rfl, Option.some_ne_none mgn⟩

/-- Witness for C10 on a single-process communicator. -/
theorem halo_global_numbering_never_none_witness :
    global_to_petsc_numbering (HaloState.mk (some [3])) = some [3] ∧
    global_to_petsc_numbering (HaloState.mk (some [3])) ≠ none :=
  halo_global_numbering_never_none true 1 [3] (HaloState.mk (some [3])) rfl
